import Mathlib

/-!
Shallow embedding of the transcript data model and speaker-identity
pipeline of The-Kraken-Dreams (`kraken_suite.py` together with the
`src/core` modules `vocabulary.py`, `formatters.py`, `transcription.py`).

Text is modelled as `List Char` (Python `str`), Python dictionaries as
association lists with Python insert-or-update semantics, timestamps as
rationals (Python floats are used by the source only for exactly
representable values in the modelled paths), and file-system reads as
explicit input data.  Functions keep the names of the source functions
they embed.
-/

/-- Python strings are modelled as lists of characters. -/
abbrev Str := List Char

/-- The ASCII whitespace characters stripped by Python `str.strip()`
(the source only ever strips ASCII text). -/
def isSpaceChar (c : Char) : Bool :=
  c = ' ' || c = '\t' || c = '\n' || c = '\r'

/-- Python `str.lstrip()`. -/
def lstrip (s : Str) : Str := s.dropWhile isSpaceChar

/-- Python `str.rstrip()`. -/
def rstrip (s : Str) : Str := (s.reverse.dropWhile isSpaceChar).reverse

/-- Python `str.strip()`. -/
def pystrip (s : Str) : Str := rstrip (lstrip s)

/-- Python `str.split(sep)` for a single-character separator. -/
def splitOnChar (sep : Char) : Str → List Str
  | [] => [[]]
  | c :: cs =>
    match splitOnChar sep cs with
    | [] => [[c]]
    | h :: t => if c = sep then [] :: h :: t else (c :: h) :: t

/-- Python `str.split("\n")`, used by the source to walk transcript lines. -/
def splitLines : Str → List Str := splitOnChar '\n'

/-- Python `"\n".join(lines)`. -/
def joinLines : List Str → Str
  | [] => []
  | [l] => l
  | l :: l2 :: ls => l ++ '\n' :: joinLines (l2 :: ls)

/-- Numeric value of an ASCII digit character. -/
def digitVal (c : Char) : ℕ := c.toNat - 48

/-- ASCII digit character of a value below ten. -/
def digitChar (n : ℕ) : Char := Char.ofNat (48 + n)

/-- Value of a string of ASCII digits (Python `int` on a digit string). -/
def digitsVal (s : Str) : ℕ := s.foldl (fun acc c => 10 * acc + digitVal c) 0

/-- Decimal digits of a natural number, most significant first; the first
argument is recursion fuel (any bound on the digit count works). -/
def natToCharsAux : ℕ → ℕ → Str
  | 0, _ => []
  | fuel + 1, n =>
    if n < 10 then [digitChar n]
    else natToCharsAux fuel (n / 10) ++ [digitChar (n % 10)]

/-- Python `str(n)` for a natural number. -/
def natRepr (n : ℕ) : Str := natToCharsAux (n + 1) n

/-- Python `f"{n:02d}"` for a natural number: zero-padded to width two. -/
def pad02 (n : ℕ) : Str := if n < 10 then '0' :: natRepr n else natRepr n

/-- Python `f"{z:02d}"` for an integer: the sign counts toward the width,
so any negative value is rendered as a minus sign followed by its digits. -/
def pad02Int (z : ℤ) : Str :=
  if z < 0 then '-' :: natRepr z.natAbs else pad02 z.toNat

/-- Sign handling of Python `int(str)`: a single leading `+` or `-` before
the digits. -/
def pyIntSign (t : Str) : ℤ × Str :=
  match t with
  | [] => (1, [])
  | c :: cs => if c = '-' then (-1, cs) else if c = '+' then (1, cs) else (1, c :: cs)

/-- Python `int(str)`: strips surrounding whitespace, allows one sign
character, then requires a nonempty run of digits; `none` models the
`ValueError` raised on anything else.  (Grouping underscores and
non-ASCII digits, which Python also accepts, do not occur in the
modelled data and are not modelled.) -/
def pyInt (s : Str) : Option ℤ :=
  let t := pystrip s
  let p := pyIntSign t
  if p.2 ≠ [] ∧ p.2.all Char.isDigit then some (p.1 * (digitsVal p.2 : ℤ)) else none

/-! ### Python dictionaries

The session keeps `self.speakers`, `self.speaker_avatars` and
`self.speaker_genders` as `dict`s keyed by strings.  A `dict` is modelled
as an association list in insertion order; `dinsert` is `d[k] = v`
(update in place if the key exists, else append), `dlookup` is `d.get(k)`
and `dupdate` is `d.update(other)`. -/

def dinsert (d : List (Str × α)) (k : Str) (v : α) : List (Str × α) :=
  match d with
  | [] => [(k, v)]
  | (k2, v2) :: t => if k2 = k then (k2, v) :: t else (k2, v2) :: dinsert t k v

def dlookup (d : List (Str × α)) (k : Str) : Option α :=
  match d with
  | [] => none
  | (k2, v) :: t => if k2 = k then some v else dlookup t k

def dupdate (d other : List (Str × α)) : List (Str × α) :=
  other.foldl (fun acc p => dinsert acc p.1 p.2) d

/-- A Python dict literal or comprehension built from a pair list. -/
def buildDict (ps : List (Str × α)) : List (Str × α) := dupdate [] ps

/-! ### Speaker label ordering (`sort_key`, kraken_suite.py lines 1424-1431)

`sort_key` maps a raw label to a pair: category 0 for diarization tags
(`SPEAKER_` prefixed), category 2 for the sentinel `UNKNOWN`, category 1
for everything else; Python then sorts labels by `(category, label)`
with lexicographic string comparison by code point. -/

def sort_key (s : Str) : ℕ × Str :=
  if ("SPEAKER_".toList).isPrefixOf s then (0, s)
  else if s = ("UNKNOWN".toList) then (2, s)
  else (1, s)

/-- Lexicographic strict comparison of strings by code point, as Python
compares `str` values. -/
def strLtb : Str → Str → Bool
  | [], [] => false
  | [], _ :: _ => true
  | _ :: _, [] => false
  | a :: as, b :: bs => decide (a < b) || (a = b && strLtb as bs)

/-- The total order Python uses on `sort_key` tuples. -/
def speakerKeyLe (a b : Str) : Bool :=
  decide ((sort_key a).1 < (sort_key b).1)
    || (decide ((sort_key a).1 = (sort_key b).1) && (strLtb a b || decide (a = b)))

def speakerLe (a b : Str) : Prop := speakerKeyLe a b = true

instance : DecidableRel speakerLe := fun a b => instDecidableEqBool (speakerKeyLe a b) true

/-- `sorted(found_speakers, key=sort_key)`: for the distinct labels the
source feeds it, any sort that is a permutation and is ordered by
`speakerLe` agrees with Python's stable sort, since the keys are then
distinct. -/
def sortSpeakers (l : List Str) : List Str := List.insertionSort speakerLe l

/-! ### Segment store and session state

A segment is one utterance `{start, end, speaker, text}`.  Timestamps
are rationals; the paths modelled here combine them only through
`int(...)`-style floors, integer arithmetic and comparisons, which agree
with the source's float arithmetic on all inputs exercised. -/

structure Segment where
  start : ℚ
  /-- The segment's `end` field (`end` is a Lean keyword). -/
  stop : ℚ
  speaker : Str
  text : Str
deriving DecidableEq

/-- The session attributes of the `KrakenSuite` controller object that the
transcript pipeline reads and writes. -/
structure SessionState where
  segments_data : List Segment
  current_transcript : Str
  speakers : List (Str × Str)
  speaker_avatars : List (Str × Str)
  speaker_genders : List (Str × Str)
  current_output_file : Option Str
  current_media_file : Option Str
deriving DecidableEq

def emptySession : SessionState :=
  { segments_data := []
    current_transcript := []
    speakers := []
    speaker_avatars := []
    speaker_genders := []
    current_output_file := none
    current_media_file := none }

/-! ### Plain transcript rendering (kraken_suite.py lines 1371-1377)

Each line is `f"[{minutes:02d}:{seconds:02d}] {speaker}: {text}"` with
`minutes = int(start // 60)` and `seconds = int(start % 60)`.  For a
rational `start`, `int(start // 60)` equals `Int.fdiv ⌊start⌋ 60` and
`int(start % 60)` equals `Int.emod ⌊start⌋ 60` (Python `//` floors, `%`
returns a value in `[0, 60)`, and `int` truncates the nonnegative
remainder), which is how the two fields are written here. -/

def transcriptLineFor (seg : Segment) : Str :=
  '[' :: pad02Int (Int.fdiv (Rat.floor seg.start) 60)
    ++ ':' :: pad02Int (Int.emod (Rat.floor seg.start) 60)
    ++ ']' :: ' ' :: seg.speaker ++ ':' :: ' ' :: seg.text

/-- The fixed title block of the load-path renderer:
`["D&D Session Transcription", "=" * 50, ""]`. -/
def titleLines : List Str :=
  [("D&D Session Transcription".toList), List.replicate 50 '=', []]

/-- The plain transcript rebuilt from a segment list when a `.json`
sidecar is loaded (one line per stored segment, in stored order, after
the title block and joined with newlines). -/
def rebuildTranscript (segs : List Segment) : Str :=
  joinLines (titleLines ++ segs.map transcriptLineFor)

/-! ### Legacy flat-text recovery (kraken_suite.py lines 1403-1413)

Each transcript line is matched against the anchored pattern
`\[(\d+):(\d+)\] ([^:]+): (.+)`; a match becomes a segment with
`start = mins * 60 + secs`, `end = start + 5` (integer arithmetic in the
source) and the stripped speaker group. -/

def legacyParseLine (line : Str) : Option Segment :=
  match line with
  | '[' :: r0 =>
    let ds1 := r0.takeWhile Char.isDigit
    let r1 := r0.dropWhile Char.isDigit
    if ds1 = [] then none else
    match r1 with
    | ':' :: r2 =>
      let ds2 := r2.takeWhile Char.isDigit
      let r3 := r2.dropWhile Char.isDigit
      if ds2 = [] then none else
      match r3 with
      | ']' :: ' ' :: r4 =>
        let spk := r4.takeWhile (fun c => c != ':')
        let r5 := r4.dropWhile (fun c => c != ':')
        if spk = [] then none else
        match r5 with
        | ':' :: ' ' :: txt =>
          if txt = [] then none
          else
            let v : ℕ := digitsVal ds1 * 60 + digitsVal ds2
            some { start := (v : ℚ), stop := ((v + 5 : ℕ) : ℚ)
                   speaker := pystrip spk, text := txt }
        | _ => none
      | _ => none
    | _ => none
  | _ => none

def legacySegments (text : Str) : List Segment :=
  (splitLines text).filterMap legacyParseLine

/-! ### Speaker re-derivation and seeding (kraken_suite.py lines 1415-1432)

After any load the speaker set is re-derived from the transcript text by
matching `\[\d+:\d+\] ([^:]+):` against each line, stripping the group
and dropping empties; the distinct labels are sorted with `sort_key` and
the name map is replaced by the identity dict `{s: s for s in found}`. -/

def extractSpeakerFromLine (line : Str) : Option Str :=
  match line with
  | '[' :: r0 =>
    let ds1 := r0.takeWhile Char.isDigit
    let r1 := r0.dropWhile Char.isDigit
    if ds1 = [] then none else
    match r1 with
    | ':' :: r2 =>
      let ds2 := r2.takeWhile Char.isDigit
      let r3 := r2.dropWhile Char.isDigit
      if ds2 = [] then none else
      match r3 with
      | ']' :: ' ' :: r4 =>
        let spk := r4.takeWhile (fun c => c != ':')
        let r5 := r4.dropWhile (fun c => c != ':')
        if spk = [] then none else
        match r5 with
        | ':' :: _ => some spk
        | _ => none
      | _ => none
    | _ => none
  | _ => none

/-- Membership-preserving de-duplication standing in for Python's `set`
(the result immediately goes through the total sort, so only membership
matters). -/
def dedupAux : List Str → List Str → List Str
  | _, [] => []
  | seen, s :: t => if s ∈ seen then dedupAux seen t else s :: dedupAux (s :: seen) t

def discoverSpeakers (transcript : Str) : List Str :=
  sortSpeakers
    (dedupAux []
      ((((splitLines transcript).filterMap extractSpeakerFromLine).map pystrip).filter
        (fun s => s ≠ [])))

/-- `self.speakers = {s: s for s in found_speakers}`: the name map is
replaced by the identity mapping on the discovered labels. -/
def seedSpeakers (found : List Str) : List (Str × Str) :=
  buildDict (found.map (fun s => (s, s)))

def finishLoad (st : SessionState) : SessionState :=
  { st with speakers := seedSpeakers (discoverSpeakers st.current_transcript) }

/-! ### Loading a transcript (`load_transcript_directly`, lines 1353-1439)

The file system is passed in explicitly: a `.json` path carries its parse
result, a flat path carries the raw text plus the parse result of the
conventionally named sidecar when that file exists.  `JsonContent.malformed`
models a file on which `json.load` raises `JSONDecodeError`; the outcome
then records the session state at the moment the exception propagates
(Python leaves any attributes already assigned in place). -/

structure SidecarData where
  segments : List Segment
  media_file : Option Str
  avatars : List (Str × Str)
  genders : List (Str × Str)
deriving DecidableEq

inductive JsonContent where
  | malformed
  | parsed (d : SidecarData)
deriving DecidableEq

inductive LoadInput where
  | jsonFile (path : Str) (content : JsonContent)
  | txtFile (path : Str) (text : Str) (sidecar : Option JsonContent)
deriving DecidableEq

inductive LoadOutcome where
  | ok (st : SessionState)
  | parseError (st : SessionState)
deriving DecidableEq

def LoadOutcome.state : LoadOutcome → SessionState
  | .ok st => st
  | .parseError st => st

def load_transcript_directly (st : SessionState) (input : LoadInput) : LoadOutcome :=
  match input with
  | .jsonFile path content =>
    let st1 := { st with current_output_file := some path }
    match content with
    | .malformed => .parseError st1
    | .parsed d =>
      let st2 := { st1 with
        segments_data := d.segments
        current_media_file := d.media_file
        speaker_avatars := dupdate st1.speaker_avatars d.avatars
        speaker_genders := dupdate st1.speaker_genders d.genders
        current_transcript := rebuildTranscript d.segments }
      .ok (finishLoad st2)
  | .txtFile path text sidecar =>
    let st1 := { st with current_output_file := some path, current_transcript := text }
    match sidecar with
    | some .malformed => .parseError st1
    | some (.parsed d) =>
      let st2 := { st1 with
        segments_data := d.segments
        current_media_file := d.media_file
        speaker_avatars := dupdate st1.speaker_avatars d.avatars
        speaker_genders := dupdate st1.speaker_genders d.genders }
      .ok (finishLoad st2)
    | none =>
      let st2 := { st1 with segments_data := legacySegments text }
      .ok (finishLoad st2)

/-! ### Rename propagation (`apply_speaker_names`, lines 1683-1764)

After the GUI entry widgets have been folded into `self.speakers` (and the
gender radio buttons into `self.speaker_genders`), the function re-keys the
avatar and gender dicts through the name map, rewrites `"] old:"` markers
in the transcript text, rewrites every segment's speaker field, and
finally replaces the name map by the identity on its values.  The inputs
here are the session state after the GUI sync; the file writes have no
effect on session state and are not modelled. -/

/-- Python `str.replace(pat, rep)`: every non-overlapping occurrence, left
to right.  (An empty pattern, which Python treats as matching at every
position, cannot arise from the `f"] {old_name}:"` patterns used.) -/
def replaceAllAux (pat rep : Str) : ℕ → Str → Str
  | 0, s => s
  | _ + 1, [] => []
  | fuel + 1, c :: cs =>
    if pat.isPrefixOf (c :: cs) && !pat.isEmpty then
      rep ++ replaceAllAux pat rep fuel ((c :: cs).drop pat.length)
    else
      c :: replaceAllAux pat rep fuel cs

def replaceAll (pat rep s : Str) : Str := replaceAllAux pat rep s.length s

/-- The rebuild of the avatar (and gender) dict: each entry whose key is in
the name map moves to its mapped name, other entries keep their key;
entries are re-inserted into a fresh dict in their original order. -/
def rekeyFold (speakers acc : List (Str × Str)) : List (Str × Str) → List (Str × Str)
  | [] => acc
  | p :: t =>
    rekeyFold speakers
      (match dlookup speakers p.1 with
       | some n => dinsert acc n p.2
       | none => dinsert acc p.1 p.2) t

def rekeyDict (speakers m : List (Str × Str)) : List (Str × Str) :=
  rekeyFold speakers [] m

/-- The moved-to key of one entry in the rebuild. -/
def rekeyName (speakers : List (Str × Str)) (k : Str) : Str :=
  match dlookup speakers k with
  | some n => n
  | none => k

/-- The per-segment speaker update of `apply_speaker_names`:
`if old_speaker in self.speakers: segment["speaker"] = self.speakers[old_speaker]`. -/
def renameSegment (speakers : List (Str × Str)) (seg : Segment) : Segment :=
  match dlookup speakers seg.speaker with
  | some n => { seg with speaker := n }
  | none => seg

def apply_speaker_names (st : SessionState) : SessionState :=
  let newAvatars := rekeyDict st.speakers st.speaker_avatars
  let newGenders := rekeyDict st.speakers st.speaker_genders
  let newTranscript := st.speakers.foldl
    (fun t p =>
      if p.1 ≠ p.2 then
        replaceAll (']' :: ' ' :: p.1 ++ [':']) (']' :: ' ' :: p.2 ++ [':']) t
      else t)
    st.current_transcript
  let newSegments := st.segments_data.map (renameSegment st.speakers)
  let newSpeakers := buildDict (st.speakers.map (fun p => (p.2, p.2)))
  { st with
    speaker_avatars := newAvatars
    speaker_genders := newGenders
    current_transcript := newTranscript
    segments_data := newSegments
    speakers := newSpeakers }

/-! ### Active speakers during playback (`update_speaker_indicators`,
kraken_suite.py lines 1959-1972)

A segment is active when `start - 0.5 <= t <= end + 0.5`; each active
segment's speaker is resolved through `self.speakers` by scanning its
items for an entry whose key or value equals the stored label, and the
entry's value (or its key when the value is the empty string) is added to
the active set. -/

def setAdd (l : List Str) (x : Str) : List Str := if x ∈ l then l else l ++ [x]

/-- The first `(old, new)` item of the name map matching the stored label
on either side, projected to the displayed name `new if new else old`. -/
def resolveDisplay (speakers : List (Str × Str)) (raw : Str) : Option Str :=
  (speakers.find? (fun p => p.1 = raw || p.2 = raw)).map
    (fun p => if p.2 ≠ [] then p.2 else p.1)

def active_speakers (segs : List Segment) (speakers : List (Str × Str)) (t : ℚ) :
    List Str :=
  segs.foldl
    (fun acc seg =>
      if seg.start - 0.5 ≤ t ∧ t ≤ seg.stop + 0.5 then
        match resolveDisplay speakers seg.speaker with
        | some n => setAdd acc n
        | none => acc
      else acc)
    []

/-! ### Vocabulary corrector (`src/core/vocabulary.py`)

`apply_corrections` runs `re.sub(r'\b' + re.escape(wrong) + r'\b', correct,
text, flags=re.IGNORECASE)` for each rule.  `re.escape` makes the pattern
literal, so a match is an occurrence of `wrong`, compared case
insensitively, delimited by word boundaries; `re.sub` scans the original
text left to right and replacements are not rescanned within one call.
ASCII case folding and the ASCII word characters `[A-Za-z0-9_]` cover all
rule and test data.  (An empty pattern — possible only from a vocabulary
line beginning with `->` — would match at every boundary in Python and is
modelled as a no-op; no such rule occurs in the modelled data.) -/

def isWordChar (c : Char) : Bool := c.isAlphanum || c = '_'

def boundaryAt (a b : Option Char) : Bool :=
  (match a with | some c => isWordChar c | none => false)
    != (match b with | some c => isWordChar c | none => false)

def lowerEq (a b : Str) : Bool := a.map Char.toLower = b.map Char.toLower

def replaceWordAux (wrong correct : Str) : ℕ → Option Char → Str → Str
  | 0, _, s => s
  | _ + 1, _, [] => []
  | fuel + 1, prev, c :: cs =>
    let s := c :: cs
    let region := s.take wrong.length
    if wrong ≠ [] ∧ region.length = wrong.length ∧ lowerEq region wrong = true
        ∧ boundaryAt prev (some c) = true
        ∧ boundaryAt region.getLast? (s.get? wrong.length) = true then
      correct ++ replaceWordAux wrong correct fuel region.getLast? (s.drop wrong.length)
    else
      c :: replaceWordAux wrong correct fuel (some c) cs

/-- One `re.sub(r'\b...\b', correct, text, flags=re.IGNORECASE)` pass. -/
def replaceWordBound (wrong correct s : Str) : Str :=
  replaceWordAux wrong correct s.length none s

def applyCorrList (rules : List (Str × Str)) (s : Str) : Str :=
  rules.foldl (fun acc p => replaceWordBound p.1 p.2 acc) s

/-- The built-in D&D glossary `DND_CORRECTIONS` (vocabulary.py lines
20-92), in source order. -/
def DND_CORRECTIONS : List (Str × Str) :=
  [ (("teefling".toList), ("tiefling".toList))
  , (("tifling".toList), ("tiefling".toList))
  , (("dragonborne".toList), ("dragonborn".toList))
  , (("half orc".toList), ("half-orc".toList))
  , (("half elf".toList), ("half-elf".toList))
  , (("aasamar".toList), ("aasimar".toList))
  , (("assimar".toList), ("aasimar".toList))
  , (("genassi".toList), ("genasi".toList))
  , (("golioth".toList), ("goliath".toList))
  , (("kenku".toList), ("kenku".toList))
  , (("tabaxy".toList), ("tabaxi".toList))
  , (("tortle".toList), ("tortle".toList))
  , (("yuan ti".toList), ("yuan-ti".toList))
  , (("barbarian".toList), ("barbarian".toList))
  , (("artifcer".toList), ("artificer".toList))
  , (("blood hunter".toList), ("blood hunter".toList))
  , (("dungeon master".toList), ("Dungeon Master".toList))
  , (("game master".toList), ("Game Master".toList))
  , (("non player character".toList), ("NPC".toList))
  , (("player character".toList), ("PC".toList))
  , (("armor class".toList), ("AC".toList))
  , (("hit points".toList), ("HP".toList))
  , (("dungens and dragons".toList), ("Dungeons & Dragons".toList))
  , (("d and d".toList), ("D&D".toList))
  , (("dnd".toList), ("D&D".toList))
  , (("dee and dee".toList), ("D&D".toList))
  , (("nat 20".toList), ("nat 20".toList))
  , (("natural 20".toList), ("nat 20".toList))
  , (("nat 1".toList), ("nat 1".toList))
  , (("natural 1".toList), ("nat 1".toList))
  , (("critical hit".toList), ("crit".toList))
  , (("critical miss".toList), ("crit fail".toList))
  , (("d4".toList), ("d4".toList))
  , (("d6".toList), ("d6".toList))
  , (("d8".toList), ("d8".toList))
  , (("d10".toList), ("d10".toList))
  , (("d12".toList), ("d12".toList))
  , (("d20".toList), ("d20".toList))
  , (("d100".toList), ("d100".toList))
  , (("percentile".toList), ("percentile".toList))
  , (("fireball".toList), ("Fireball".toList))
  , (("magic missile".toList), ("Magic Missile".toList))
  , (("eldritch blast".toList), ("Eldritch Blast".toList))
  , (("cure wounds".toList), ("Cure Wounds".toList))
  , (("healing word".toList), ("Healing Word".toList))
  , (("thunder wave".toList), ("Thunderwave".toList))
  , (("shield".toList), ("Shield".toList))
  , (("counter spell".toList), ("Counterspell".toList))
  , (("dispel magic".toList), ("Dispel Magic".toList))
  , (("attack of opportunity".toList), ("opportunity attack".toList))
  , (("bonus action".toList), ("bonus action".toList))
  , (("reaction".toList), ("reaction".toList))
  , (("concentration".toList), ("concentration".toList))
  , (("advantage".toList), ("advantage".toList))
  , (("disadvantage".toList), ("disadvantage".toList))
  , (("saving throw".toList), ("saving throw".toList))
  , (("ability check".toList), ("ability check".toList))
  , (("skill check".toList), ("skill check".toList))
  , (("death save".toList), ("death save".toList))
  , (("death saving throw".toList), ("death save".toList)) ]

/-- The rule tables of a `VocabularyManager`. -/
structure VocabularyManager where
  custom_corrections : List (Str × Str)
  character_names : List Str
  place_names : List Str
deriving DecidableEq

def emptyVocab : VocabularyManager :=
  { custom_corrections := [], character_names := [], place_names := [] }

/-- `VocabularyManager.apply_corrections` (vocabulary.py lines 195-230):
custom corrections first, then character names and place names replaced
by their canonical casing, then the built-in glossary when opted in. -/
def apply_corrections (v : VocabularyManager) (text : Str) (use_dnd_terms : Bool) :
    Str :=
  let r1 := applyCorrList v.custom_corrections text
  let r2 := v.character_names.foldl
    (fun acc n => replaceWordBound (n.map Char.toLower) n acc) r1
  let r3 := v.place_names.foldl
    (fun acc n => replaceWordBound (n.map Char.toLower) n acc) r2
  if use_dnd_terms then applyCorrList DND_CORRECTIONS r3 else r3

/-! ### Vocabulary file loading (`load_vocabulary`, vocabulary.py 118-150)

The body wraps the read in `try ... except IOError: pass`.  The possible
fates of the file are: absent (the guard returns early), unreadable (the
`open`/read raises `IOError`, which is caught), not valid UTF-8 (iterating
the text stream raises `UnicodeDecodeError`, which is **not** an
`IOError` and so propagates), or decodable text, whose lines are parsed
totally. -/

inductive VocabFile where
  | absent
  | unreadable
  | undecodable
  | text (lines : List Str)
deriving DecidableEq

inductive PyError where
  | ioError
  | unicodeDecodeError
deriving DecidableEq

/-- Whether the line contains the `->` separator. -/
def hasArrow : Str → Bool
  | [] => false
  | '-' :: '>' :: _ => true
  | _ :: cs => hasArrow cs

/-- `line.split('->', 1)` for a line known to contain `->`. -/
def splitArrow : Str → Str × Str
  | [] => ([], [])
  | '-' :: '>' :: rest => ([], rest)
  | c :: cs => ((c :: (splitArrow cs).1), (splitArrow cs).2)

def processVocabLine (acc : VocabularyManager × Option Str) (rawLine : Str) :
    VocabularyManager × Option Str :=
  let line := pystrip rawLine
  let v := acc.1
  let sect := acc.2
  if line = [] then acc
  else if line.head? = some '#' then acc
  else if line.head? = some '[' ∧ line.getLast? = some ']' then
    (v, some ((line.drop 1).dropLast.map Char.toLower))
  else
    match sect with
    | some sec =>
      if sec = ("characters".toList) then
        ({ v with character_names := v.character_names ++ [line] }, sect)
      else if sec = ("places".toList) then
        ({ v with place_names := v.place_names ++ [line] }, sect)
      else if sec = ("corrections".toList) then
        if hasArrow line then
          ({ v with custom_corrections := v.custom_corrections
              ++ [((pystrip (splitArrow line).1).map Char.toLower, pystrip (splitArrow line).2)] },
            sect)
        else (v, sect)
      else (v, sect)
    | none => (v, sect)

def load_vocabulary (file : VocabFile) (v : VocabularyManager) :
    Except PyError VocabularyManager :=
  match file with
  | .absent => .ok v
  | .unreadable => .ok v
  | .undecodable => .error .unicodeDecodeError
  | .text lines => .ok (lines.foldl processVocabLine (v, none)).1

/-! ### Timestamp formatting (`src/core/formatters.py` lines 17-64)

`format_timestamp` takes seconds (or `None`) and a style; `int(seconds)`
for nonnegative input is the floor.  `parse_timestamp` splits on `:` and
re-parses with `int`, returning `0` when anything raises. -/

def format_timestamp (seconds : Option ℚ) (format_style : Str) : Str :=
  match seconds with
  | none => if format_style = ("mm:ss".toList) then ("00:00".toList) else ("00:00:00".toList)
  | some s =>
    if s < 0 then
      if format_style = ("mm:ss".toList) then ("00:00".toList) else ("00:00:00".toList)
    else
      let total : ℕ := (Rat.floor s).toNat
      let hours := total / 3600
      let minutes := total % 3600 / 60
      let secs := total % 60
      if format_style = ("hh:mm:ss".toList) ∨ hours > 0 then
        pad02 hours ++ ':' :: pad02 minutes ++ ':' :: pad02 secs
      else
        pad02 minutes ++ ':' :: pad02 secs

def parse_timestamp (timestamp_str : Str) : ℤ :=
  match splitOnChar ':' timestamp_str with
  | [a, b] =>
    match pyInt a, pyInt b with
    | some x, some y => x * 60 + y
    | _, _ => 0
  | [a, b, c] =>
    match pyInt a, pyInt b, pyInt c with
    | some x, some y, some z => x * 3600 + y * 60 + z
    | _, _, _ => 0
  | _ => 0

/-! ## Supporting lemmas -/

theorem dlookup_dinsert (d : List (Str × α)) (k k2 : Str) (v : α) :
    dlookup (dinsert d k v) k2 = if k2 = k then some v else dlookup d k2 := by
  induction d with
  | nil =>
    by_cases h : k2 = k
    · subst h; simp [dinsert, dlookup]
    · simp [dinsert, dlookup, h, Ne.symm h]
  | cons p t ih =>
    obtain ⟨k0, v0⟩ := p
    by_cases h0 : k0 = k
    · subst h0
      by_cases h : k2 = k0
      · subst h; simp [dinsert, dlookup]
      · simp [dinsert, dlookup, h, Ne.symm h]
    · by_cases h : k0 = k2
      · subst h
        have hk : ¬ k0 = k := h0
        simp [dinsert, dlookup, h0, Ne.symm hk]
      · simp [dinsert, dlookup, h0, h, ih]

theorem dlookup_mem {d : List (Str × α)} {k : Str} {v : α}
    (h : dlookup d k = some v) : (k, v) ∈ d := by
  induction d with
  | nil => simp [dlookup] at h
  | cons p t ih =>
    obtain ⟨k0, v0⟩ := p
    by_cases h0 : k0 = k
    · subst h0
      simp [dlookup] at h
      simp [h]
    · simp [dlookup, h0] at h
      exact List.mem_cons_of_mem _ (ih h)

theorem dlookup_isSome_of_mem_keys {d : List (Str × α)} {k : Str}
    (h : k ∈ d.map Prod.fst) : ∃ v, dlookup d k = some v := by
  induction d with
  | nil => simp at h
  | cons p t ih =>
    obtain ⟨k0, v0⟩ := p
    by_cases h0 : k0 = k
    · subst h0
      exact ⟨v0, by simp [dlookup]⟩
    · have hmem : k ∈ t.map Prod.fst := by
        rcases List.mem_map.1 h with ⟨q, hq, hk⟩
        rcases List.mem_cons.1 hq with h1 | h1
        · rw [h1] at hk
          exact absurd hk h0
        · exact List.mem_map.2 ⟨q, h1, hk⟩
      rcases ih hmem with ⟨v2, hv⟩
      exact ⟨v2, by simp [dlookup, h0, hv]⟩

theorem dlookup_split {d : List (Str × α)} {k : Str} {v : α}
    (h : dlookup d k = some v) :
    ∃ d1 d2, d = d1 ++ (k, v) :: d2 ∧ k ∉ d1.map Prod.fst := by
  induction d with
  | nil => simp [dlookup] at h
  | cons p t ih =>
    obtain ⟨k0, v0⟩ := p
    by_cases h0 : k0 = k
    · subst h0
      simp [dlookup] at h
      refine ⟨[], t, ?_, ?_⟩
      · simp [h]
      · simp
    · simp [dlookup, h0] at h
      rcases ih h with ⟨d1, d2, hd, hk⟩
      refine ⟨(k0, v0) :: d1, d2, by simp [hd], ?_⟩
      simp [hk]
      exact fun hh => h0 hh.symm

theorem dlookup_seed_foldl (found : List Str) (acc : List (Str × Str)) (A : Str) :
    dlookup (found.foldl (fun d s => dinsert d s s) acc) A
      = if A ∈ found then some A else dlookup acc A := by
  induction found generalizing acc with
  | nil => simp
  | cons s t ih =>
    by_cases hmem : A ∈ t
    · simp [List.foldl_cons, ih, hmem, List.mem_cons]
    · by_cases hs : A = s
      · subst hs
        simp [List.foldl_cons, ih, hmem, dlookup_dinsert]
      · simp [List.foldl_cons, ih, hmem, dlookup_dinsert, hs]

theorem dlookup_seedSpeakers (found : List Str) (A : Str) :
    dlookup (seedSpeakers found) A = if A ∈ found then some A else none := by
  have h : seedSpeakers found = found.foldl (fun d s => dinsert d s s) [] := by
    simp [seedSpeakers, buildDict, dupdate, List.foldl_map]
  rw [h, dlookup_seed_foldl]
  simp [dlookup]

theorem splitOnChar_ne_nil (sep : Char) (s : Str) : splitOnChar sep s ≠ [] := by
  cases s with
  | nil => simp [splitOnChar]
  | cons c cs =>
    unfold splitOnChar
    cases h : splitOnChar sep cs with
    | nil => simp
    | cons a t =>
      by_cases hc : c = sep <;> simp [hc]

theorem splitOnChar_no_sep (sep : Char) (s : Str) (h : ∀ c ∈ s, c ≠ sep) :
    splitOnChar sep s = [s] := by
  induction s with
  | nil => rfl
  | cons c cs ih =>
    have hc : c ≠ sep := h c (List.mem_cons_self c cs)
    unfold splitOnChar
    rw [ih (fun d hd => h d (List.mem_cons_of_mem c hd))]
    simp [hc]

theorem splitOnChar_cons (sep c : Char) (cs : Str) :
    splitOnChar sep (c :: cs)
      = match splitOnChar sep cs with
        | [] => [[c]]
        | h :: t => if c = sep then [] :: h :: t else (c :: h) :: t := rfl

theorem splitOnChar_block (sep : Char) (xs ys : Str) (h : ∀ c ∈ xs, c ≠ sep) :
    splitOnChar sep (xs ++ sep :: ys) = xs :: splitOnChar sep ys := by
  induction xs with
  | nil =>
    obtain ⟨a, t, hy⟩ : ∃ a t, splitOnChar sep ys = a :: t := by
      cases hx : splitOnChar sep ys with
      | nil => exact absurd hx (splitOnChar_ne_nil sep ys)
      | cons a t => exact ⟨a, t, rfl⟩
    simp only [List.nil_append]
    rw [splitOnChar_cons, hy]
    simp
  | cons c cs ih =>
    have hc : c ≠ sep := h c (List.mem_cons_self c cs)
    have ih2 := ih (fun d hd => h d (List.mem_cons_of_mem c hd))
    rw [List.cons_append, splitOnChar_cons, ih2]
    simp [hc]

theorem splitLines_joinLines (ls : List Str)
    (h : ∀ l ∈ ls, ∀ c ∈ l, c ≠ '\n') (hne : ls ≠ []) :
    splitLines (joinLines ls) = ls := by
  induction ls with
  | nil => exact absurd rfl hne
  | cons l t ih =>
    cases t with
    | nil =>
      show splitOnChar '\n' l = [l]
      exact splitOnChar_no_sep '\n' l (h l (List.mem_cons_self l []))
    | cons l2 t2 =>
      show splitOnChar '\n' (l ++ '\n' :: joinLines (l2 :: t2)) = l :: (l2 :: t2)
      rw [splitOnChar_block '\n' l _ (h l (List.mem_cons_self l _))]
      have h2 := ih (fun x hx c hc => h x (List.mem_cons_of_mem l hx) c hc) (by simp)
      rw [show splitOnChar '\n' (joinLines (l2 :: t2)) = splitLines (joinLines (l2 :: t2)) from rfl, h2]

theorem takeWhile_append_all (p : Char → Bool) (xs ys : Str)
    (h : ∀ c ∈ xs, p c = true) :
    (xs ++ ys).takeWhile p = xs ++ ys.takeWhile p := by
  induction xs with
  | nil => simp
  | cons c cs ih =>
    simp only [List.cons_append, List.takeWhile_cons, h c (List.mem_cons_self c cs)]
    rw [ih (fun d hd => h d (List.mem_cons_of_mem c hd))]
    simp

theorem dropWhile_append_all (p : Char → Bool) (xs ys : Str)
    (h : ∀ c ∈ xs, p c = true) :
    (xs ++ ys).dropWhile p = ys.dropWhile p := by
  induction xs with
  | nil => simp
  | cons c cs ih =>
    simp only [List.cons_append, List.dropWhile_cons, h c (List.mem_cons_self c cs)]
    exact ih (fun d hd => h d (List.mem_cons_of_mem c hd))

theorem takeWhile_head_false (p : Char → Bool) (c : Char) (cs : Str)
    (h : p c = false) : (c :: cs).takeWhile p = [] := by
  simp [List.takeWhile_cons, h]

theorem dropWhile_head_false (p : Char → Bool) (c : Char) (cs : Str)
    (h : p c = false) : (c :: cs).dropWhile p = c :: cs := by
  simp [List.dropWhile_cons, h]

theorem dropWhile_all_false (p : Char → Bool) (s : Str)
    (h : ∀ c ∈ s, p c = false) : s.dropWhile p = s := by
  cases s with
  | nil => rfl
  | cons c cs => exact dropWhile_head_false p c cs (h c (List.mem_cons_self c cs))

theorem digit_basics : ∀ n : ℕ, n < 10 →
    (digitChar n).isDigit = true ∧ digitVal (digitChar n) = n := by decide

theorem digitsVal_append_singleton (xs : Str) (c : Char) :
    digitsVal (xs ++ [c]) = 10 * digitsVal xs + digitVal c := by
  simp [digitsVal, List.foldl_append]

theorem natToCharsAux_spec :
    ∀ fuel n : ℕ, n < 10 ^ fuel → 1 ≤ fuel →
      ((natToCharsAux fuel n).all Char.isDigit = true
        ∧ natToCharsAux fuel n ≠ []
        ∧ digitsVal (natToCharsAux fuel n) = n) := by
  intro fuel
  induction fuel with
  | zero => intro n _ h1; omega
  | succ f ih =>
    intro n hn _
    by_cases h10 : n < 10
    · refine ⟨?_, ?_, ?_⟩
      · simp [natToCharsAux, h10, (digit_basics n h10).1]
      · simp [natToCharsAux, h10]
      · simp [natToCharsAux, h10, digitsVal, (digit_basics n h10).2]
    · have hf : 1 ≤ f := by
        by_contra hf0
        have : f = 0 := by omega
        subst this
        simp at hn
        omega
      have hdiv : n / 10 < 10 ^ f := by
        have h2 : n < 10 ^ f * 10 := by
          calc n < 10 ^ (f + 1) := hn
          _ = 10 ^ f * 10 := by ring
        exact Nat.div_lt_of_lt_mul (by omega)
      rcases ih (n / 10) hdiv hf with ⟨ha, hne, hv⟩
      have hm : n % 10 < 10 := Nat.mod_lt n (by omega)
      refine ⟨?_, ?_, ?_⟩
      · simp [natToCharsAux, h10, List.all_append, ha, (digit_basics (n % 10) hm).1]
      · simp [natToCharsAux, h10]
      · simp [natToCharsAux, h10, digitsVal_append_singleton, hv,
          (digit_basics (n % 10) hm).2]
        omega

theorem natRepr_spec (n : ℕ) :
    (natRepr n).all Char.isDigit = true ∧ natRepr n ≠ []
      ∧ digitsVal (natRepr n) = n := by
  have hlt : n < 10 ^ (n + 1) := by
    have := Nat.lt_pow_self (by norm_num : 1 < 10) (n + 1)
    omega
  exact natToCharsAux_spec (n + 1) n hlt (by omega)

theorem digitsVal_cons_zero (xs : Str) : digitsVal ('0' :: xs) = digitsVal xs := rfl

theorem pad02_spec (n : ℕ) :
    (pad02 n).all Char.isDigit = true ∧ pad02 n ≠ []
      ∧ digitsVal (pad02 n) = n := by
  rcases natRepr_spec n with ⟨ha, hne, hv⟩
  by_cases h : n < 10
  · refine ⟨?_, by simp [pad02, h], ?_⟩
    · simp [pad02, h, ha]
    · simp [pad02, h, digitsVal_cons_zero, hv]
  · simp [pad02, h, ha, hne, hv]

theorem isSpaceChar_eq_false_of_isDigit (c : Char) (h : c.isDigit = true) :
    isSpaceChar c = false := by
  by_cases h1 : c = ' '
  · subst h1; exact absurd h (by decide)
  by_cases h2 : c = '\t'
  · subst h2; exact absurd h (by decide)
  by_cases h3 : c = '\n'
  · subst h3; exact absurd h (by decide)
  by_cases h4 : c = '\r'
  · subst h4; exact absurd h (by decide)
  simp [isSpaceChar, h1, h2, h3, h4]

theorem pystrip_of_all_digits (s : Str) (h : s.all Char.isDigit = true) :
    pystrip s = s := by
  have hall : ∀ c ∈ s, Char.isDigit c = true := List.all_eq_true.1 h
  have h1 : lstrip s = s :=
    dropWhile_all_false _ s (fun c hc => isSpaceChar_eq_false_of_isDigit c (hall c hc))
  have h2 : rstrip s = s := by
    unfold rstrip
    rw [dropWhile_all_false _ s.reverse
      (fun c hc => isSpaceChar_eq_false_of_isDigit c (hall c (List.mem_reverse.1 hc)))]
    exact List.reverse_reverse s
  unfold pystrip
  rw [h1, h2]

theorem pyInt_of_digits (s : Str) (h : s.all Char.isDigit = true) (hne : s ≠ []) :
    pyInt s = some ((digitsVal s : ℕ) : ℤ) := by
  have hall : ∀ c ∈ s, Char.isDigit c = true := List.all_eq_true.1 h
  cases s with
  | nil => exact absurd rfl hne
  | cons c cs =>
    have hc : c.isDigit = true := hall c (List.mem_cons_self c cs)
    have hminus : ¬ c = '-' := fun hh => by subst hh; exact absurd hc (by decide)
    have hplus : ¬ c = '+' := fun hh => by subst hh; exact absurd hc (by decide)
    unfold pyInt
    rw [pystrip_of_all_digits (c :: cs) h]
    simp only [pyIntSign, hminus, hplus, if_false]
    simp [h]

theorem ne_colon_of_digits (s : Str) (h : s.all Char.isDigit = true) :
    ∀ c ∈ s, c ≠ ':' := by
  intro c hc heq
  have hd := (List.all_eq_true.1 h) c hc
  subst heq
  exact absurd hd (by decide)

theorem parse_two_pads (a b : ℕ) :
    parse_timestamp (pad02 a ++ ':' :: pad02 b) = (a : ℤ) * 60 + (b : ℤ) := by
  rcases pad02_spec a with ⟨ha, hnea, hva⟩
  rcases pad02_spec b with ⟨hb, hneb, hvb⟩
  have hsplit : splitOnChar ':' (pad02 a ++ ':' :: pad02 b) = [pad02 a, pad02 b] := by
    rw [splitOnChar_block ':' _ _ (ne_colon_of_digits _ ha),
      splitOnChar_no_sep ':' _ (ne_colon_of_digits _ hb)]
  simp only [parse_timestamp, hsplit, pyInt_of_digits _ ha hnea,
    pyInt_of_digits _ hb hneb, hva, hvb]

theorem parse_three_pads (a b c : ℕ) :
    parse_timestamp (pad02 a ++ ':' :: pad02 b ++ ':' :: pad02 c)
      = (a : ℤ) * 3600 + (b : ℤ) * 60 + (c : ℤ) := by
  rcases pad02_spec a with ⟨ha, hnea, hva⟩
  rcases pad02_spec b with ⟨hb, hneb, hvb⟩
  rcases pad02_spec c with ⟨hc, hnec, hvc⟩
  have hsplit : splitOnChar ':' (pad02 a ++ ':' :: pad02 b ++ ':' :: pad02 c)
      = [pad02 a, pad02 b, pad02 c] := by
    rw [List.append_assoc]
    simp only [List.cons_append]
    rw [splitOnChar_block ':' _ _ (ne_colon_of_digits _ ha),
      splitOnChar_block ':' _ _ (ne_colon_of_digits _ hb),
      splitOnChar_no_sep ':' _ (ne_colon_of_digits _ hc)]
  simp only [parse_timestamp, hsplit, pyInt_of_digits _ ha hnea,
    pyInt_of_digits _ hb hneb, pyInt_of_digits _ hc hnec, hva, hvb, hvc]

theorem format_timestamp_nonneg (s : ℚ) (hs : 0 ≤ s) (style : Str) :
    format_timestamp (some s) style
      = (if style = ("hh:mm:ss".toList) ∨ (Rat.floor s).toNat / 3600 > 0 then
          pad02 ((Rat.floor s).toNat / 3600)
            ++ ':' :: pad02 ((Rat.floor s).toNat % 3600 / 60)
            ++ ':' :: pad02 ((Rat.floor s).toNat % 60)
        else
          pad02 ((Rat.floor s).toNat % 3600 / 60) ++ ':' :: pad02 ((Rat.floor s).toNat % 60)) := by
  simp only [format_timestamp, not_lt.mpr hs, if_false]

/-! ## Claims -/

/-- Claim C10: timestamp round trip.  For every nonnegative number of
seconds `s` and both format styles, `parse_timestamp (format_timestamp
(some s) style)` recovers exactly the integer part of `s`; and for `None`
or negative input `format_timestamp` returns the zero timestamp of the
requested style. -/
theorem timestamp_round_trip :
    (∀ s : ℚ, 0 ≤ s →
      parse_timestamp (format_timestamp (some s) ("mm:ss".toList)) = ⌊s⌋
        ∧ parse_timestamp (format_timestamp (some s) ("hh:mm:ss".toList)) = ⌊s⌋)
    ∧ format_timestamp none ("mm:ss".toList) = ("00:00".toList)
    ∧ format_timestamp none ("hh:mm:ss".toList) = ("00:00:00".toList)
    ∧ (∀ s : ℚ, s < 0 →
      format_timestamp (some s) ("mm:ss".toList) = ("00:00".toList)
        ∧ format_timestamp (some s) ("hh:mm:ss".toList) = ("00:00:00".toList)) := by
  refine ⟨?_, by decide, by decide, ?_⟩
  · intro s hs
    have hfl : ((Rat.floor s).toNat : ℤ) = ⌊s⌋ :=
      Int.toNat_of_nonneg (Int.floor_nonneg.mpr hs)
    set t := (Rat.floor s).toNat with ht
    constructor
    · rw [format_timestamp_nonneg s hs]
      by_cases hh : t / 3600 > 0
      · rw [if_pos (Or.inr hh), parse_three_pads]
        rw [← hfl]
        push_cast
        omega
      · have hmm : ¬ (("mm:ss".toList) = ("hh:mm:ss".toList) ∨ t / 3600 > 0) := by
          rintro (hx | hx)
          · exact absurd hx (by decide)
          · exact hh hx
        rw [if_neg hmm, parse_two_pads]
        rw [← hfl]
        push_cast
        omega
    · rw [format_timestamp_nonneg s hs, if_pos (Or.inl rfl), parse_three_pads]
      rw [← hfl]
      push_cast
      omega
  · intro s hs
    constructor <;> simp [format_timestamp, hs]

/-- Witness for C10 at the concrete input `s = 3700` seconds. -/
theorem timestamp_round_trip_witness :
    (0 ≤ (3700 : ℚ))
      ∧ parse_timestamp (format_timestamp (some 3700) ("mm:ss".toList)) = ⌊(3700 : ℚ)⌋
      ∧ parse_timestamp (format_timestamp (some 3700) ("hh:mm:ss".toList)) = ⌊(3700 : ℚ)⌋ :=
  ⟨by norm_num,
    (timestamp_round_trip.1 3700 (by norm_num)).1,
    (timestamp_round_trip.1 3700 (by norm_num)).2⟩

/-- Claim C9: the claim says loading the vocabulary never raises for any
file content, including non-UTF-8 bytes.  The source's `try ... except
IOError: pass` does swallow OS-level read errors and parses any decodable
text totally, but a `UnicodeDecodeError` (not an `IOError` in Python 3)
propagates out of `load_vocabulary`, so a vocabulary file with invalid
UTF-8 bytes does raise. -/
theorem vocab_load_error_behaviour :
    (∀ v, load_vocabulary VocabFile.undecodable v = .error PyError.unicodeDecodeError)
    ∧ (∀ v, load_vocabulary VocabFile.unreadable v = .ok v)
    ∧ (∀ v, load_vocabulary VocabFile.absent v = .ok v)
    ∧ (∀ v lines,
        load_vocabulary (VocabFile.text lines) v
          = .ok (lines.foldl processVocabLine (v, none)).1) :=
  ⟨fun _ => rfl, fun _ => rfl, fun _ => rfl, fun _ _ => rfl⟩

/-- Claim C4, counterexample: `apply_corrections` is not idempotent.  On
the text `"d and dnd"` with no custom rules and the built-in glossary
enabled, one application yields `"d and D&D"` (the rule `dnd → D&D`), but
a second application rewrites that output again, because `"d and D"` now
matches the earlier rule `d and d → D&D` at the `&` word boundary,
producing `"D&D&D"`. -/
theorem apply_corrections_not_idempotent :
    apply_corrections emptyVocab ("d and dnd".toList) true = ("d and D&D".toList)
      ∧ apply_corrections emptyVocab (apply_corrections emptyVocab ("d and dnd".toList) true) true
          = ("D&D&D".toList)
      ∧ apply_corrections emptyVocab (apply_corrections emptyVocab ("d and dnd".toList) true) true
          ≠ apply_corrections emptyVocab ("d and dnd".toList) true := by
  refine ⟨by decide, by decide, by decide⟩

/-- Claim C4, amended: idempotence holds exactly in the sense of §4.2 of
the specification ("idempotent for already-corrected text"): whenever one
application leaves the text fixed, further applications change nothing;
the unrestricted form is refuted by `apply_corrections_not_idempotent`. -/
theorem apply_corrections_idempotent_on_fixed_text
    (v : VocabularyManager) (u : Bool) (t : Str)
    (h : apply_corrections v t u = t) :
    apply_corrections v (apply_corrections v t u) u = apply_corrections v t u := by
  rw [h]
  exact h

/-- Witness for the amended C4 at a concrete fixed text. -/
theorem apply_corrections_idempotent_witness :
    apply_corrections emptyVocab ("the kraken stirs".toList) true = ("the kraken stirs".toList)
      ∧ apply_corrections emptyVocab
          (apply_corrections emptyVocab ("the kraken stirs".toList) true) true
        = apply_corrections emptyVocab ("the kraken stirs".toList) true :=
  ⟨by decide, apply_corrections_idempotent_on_fixed_text emptyVocab true _ (by decide)⟩

theorem strLtb_cons (a b : Char) (as bs : Str) :
    strLtb (a :: as) (b :: bs)
      = (decide (a < b) || (decide (a = b) && strLtb as bs)) := rfl

theorem strLtb_total : ∀ a b : Str, strLtb a b = true ∨ a = b ∨ strLtb b a = true := by
  intro a
  induction a with
  | nil =>
    intro b
    cases b with
    | nil => right; left; rfl
    | cons c cs => left; rfl
  | cons x xs ih =>
    intro b
    cases b with
    | nil => right; right; rfl
    | cons y ys =>
      rcases lt_trichotomy x y with h | h | h
      · left
        rw [strLtb_cons]
        simp [h]
      · subst h
        rcases ih ys with h1 | h1 | h1
        · left
          rw [strLtb_cons]
          simp [h1]
        · subst h1
          right; left; rfl
        · right; right
          rw [strLtb_cons]
          simp [h1]
      · right; right
        rw [strLtb_cons]
        simp [h]

theorem strLtb_trans : ∀ a b c : Str,
    strLtb a b = true → strLtb b c = true → strLtb a c = true := by
  intro a
  induction a with
  | nil =>
    intro b c hab hbc
    cases b with
    | nil => exact absurd hab (by simp [strLtb])
    | cons y ys =>
      cases c with
      | nil => exact absurd hbc (by simp [strLtb])
      | cons z zs => rfl
  | cons x xs ih =>
    intro b c hab hbc
    cases b with
    | nil => exact absurd hab (by simp [strLtb])
    | cons y ys =>
      cases c with
      | nil => exact absurd hbc (by simp [strLtb])
      | cons z zs =>
        rw [strLtb_cons] at hab hbc ⊢
        simp only [Bool.or_eq_true, Bool.and_eq_true, decide_eq_true_eq] at hab hbc ⊢
        rcases hab with h1 | ⟨h1, h1r⟩
        · rcases hbc with h2 | ⟨h2, _⟩
          · exact Or.inl (lt_trans h1 h2)
          · exact Or.inl (h2 ▸ h1)
        · rcases hbc with h2 | ⟨h2, h2r⟩
          · exact Or.inl (h1 ▸ h2)
          · exact Or.inr ⟨h1.trans h2, ih ys zs h1r h2r⟩

theorem speakerLe_iff (a b : Str) :
    speakerLe a b
      ↔ ((sort_key a).1 < (sort_key b).1
          ∨ ((sort_key a).1 = (sort_key b).1 ∧ (strLtb a b = true ∨ a = b))) := by
  unfold speakerLe speakerKeyLe
  simp [Bool.or_eq_true, Bool.and_eq_true, decide_eq_true_eq]

instance : IsTotal Str speakerLe := by
  constructor
  intro a b
  rcases Nat.lt_trichotomy (sort_key a).1 (sort_key b).1 with h | h | h
  · exact Or.inl ((speakerLe_iff a b).2 (Or.inl h))
  · rcases strLtb_total a b with hs | hs | hs
    · exact Or.inl ((speakerLe_iff a b).2 (Or.inr ⟨h, Or.inl hs⟩))
    · exact Or.inl ((speakerLe_iff a b).2 (Or.inr ⟨h, Or.inr hs⟩))
    · exact Or.inr ((speakerLe_iff b a).2 (Or.inr ⟨h.symm, Or.inl hs⟩))
  · exact Or.inr ((speakerLe_iff b a).2 (Or.inl h))

instance : IsTrans Str speakerLe := by
  constructor
  intro a b c hab hbc
  rcases (speakerLe_iff a b).1 hab with h1 | ⟨h1, h1r⟩
  · rcases (speakerLe_iff b c).1 hbc with h2 | ⟨h2, _⟩
    · exact (speakerLe_iff a c).2 (Or.inl (lt_trans h1 h2))
    · exact (speakerLe_iff a c).2 (Or.inl (h2 ▸ h1))
  · rcases (speakerLe_iff b c).1 hbc with h2 | ⟨h2, h2r⟩
    · exact (speakerLe_iff a c).2 (Or.inl (h1 ▸ h2))
    · refine (speakerLe_iff a c).2 (Or.inr ⟨h1.trans h2, ?_⟩)
      rcases h1r with hx | hx
      · rcases h2r with hy | hy
        · exact Or.inl (strLtb_trans a b c hx hy)
        · exact Or.inl (hy ▸ hx)
      · subst hx
        exact h2r

/-- Claim C8: raw speaker label enumeration order.  The enumeration is a
permutation of the discovered labels sorted by `sort_key`: `SPEAKER_`
tags (category 0) first in lexical order, the sentinel `UNKNOWN`
(category 2) last, every other label (category 1) in between
alphabetically; on the concrete label set of the claim it yields exactly
`["SPEAKER_00", "SPEAKER_01", "Zara", "UNKNOWN"]`. -/
theorem speaker_sort_order :
    (∀ l : List Str, List.Perm (sortSpeakers l) l ∧ (sortSpeakers l).Sorted speakerLe)
    ∧ sortSpeakers
        [("SPEAKER_01".toList), ("SPEAKER_00".toList), ("UNKNOWN".toList), ("Zara".toList)]
      = [("SPEAKER_00".toList), ("SPEAKER_01".toList), ("Zara".toList), ("UNKNOWN".toList)] := by
  refine ⟨fun l => ⟨List.perm_insertionSort speakerLe l, List.sorted_insertionSort speakerLe l⟩, ?_⟩
  decide

/-- Claim C2, counterexample: re-seeding is destructive.  With the
registry holding the prior rename `A → C`, re-loading a transcript whose
lines still carry the raw label `A` replaces the name map by the identity
`{A: A}` (kraken_suite.py line 1432), so `A` is reset to `A`, not left
mapped to `C`. -/
theorem seed_preservation_counterexample :
    dlookup
      (load_transcript_directly
        { emptySession with speakers := [(("A".toList), ("C".toList))] }
        (.txtFile ("p.txt".toList) ("[00:05] A: hi".toList) none)).state.speakers
      ("A".toList)
      ≠ some ("C".toList) := by decide

/-- Claim C2, amended: re-seeding replaces the name map with the identity
mapping on the labels discovered in the loaded transcript text; every
discovered label is mapped to itself afterwards, so a prior rename
`A → C` is reset to `A → A` whenever the raw label `A` is re-discovered. -/
theorem seed_resets_to_identity
    (st : SessionState) (path text A : Str)
    (h : A ∈ discoverSpeakers text) :
    dlookup (load_transcript_directly st (.txtFile path text none)).state.speakers A
      = some A := by
  show dlookup (seedSpeakers (discoverSpeakers text)) A = some A
  rw [dlookup_seedSpeakers]
  simp [h]

/-- Witness for the amended C2: loading a flat transcript mentioning
`Alice` maps `Alice` to itself. -/
theorem seed_resets_witness :
    (("Alice".toList) ∈ discoverSpeakers ("[00:05] Alice: Hello".toList))
      ∧ dlookup
          (load_transcript_directly emptySession
            (.txtFile ("p.txt".toList) ("[00:05] Alice: Hello".toList) none)).state.speakers
          ("Alice".toList)
        = some ("Alice".toList) :=
  ⟨by decide,
    seed_resets_to_identity emptySession ("p.txt".toList) ("[00:05] Alice: Hello".toList)
      ("Alice".toList) (by decide)⟩

/-- Claim C3, counterexample: a malformed `.json` sidecar makes the load
raise, but not before `self.current_output_file` has been reassigned
(kraken_suite.py line 1354), so the prior session state is not left fully
unchanged; in the flat-text variant the transcript text has also already
been replaced (line 1383) when the corrupt sidecar raises. -/
theorem malformed_sidecar_counterexample :
    (load_transcript_directly
        { emptySession with current_output_file := some ("old.txt".toList) }
        (.jsonFile ("bad.json".toList) .malformed)).state.current_output_file
      ≠ some ("old.txt".toList)
    ∧ (load_transcript_directly
        { emptySession with current_transcript := ("prior text".toList) }
        (.txtFile ("flat.txt".toList) ("new text".toList) (some .malformed))).state.current_transcript
      ≠ ("prior text".toList) := by
  refine ⟨by decide, by decide⟩

/-- Claim C3, amended: a malformed sidecar still fails loudly — the parse
error propagates and there is no silent fallback — and the segment list,
avatar map and gender map (and, for a `.json` path, the transcript text)
are left unchanged; but `current_output_file` has already been repointed
at the new path, and in the flat-text case the transcript text has
already been replaced by the newly read file, before the error is
raised. -/
theorem malformed_sidecar_behaviour :
    (∀ st path,
      load_transcript_directly st (.jsonFile path .malformed)
        = .parseError { st with current_output_file := some path })
    ∧ (∀ st path text,
      load_transcript_directly st (.txtFile path text (some .malformed))
        = .parseError { st with current_output_file := some path,
                                current_transcript := text }) :=
  ⟨fun _ _ => rfl, fun _ _ _ => rfl⟩

theorem pad02Int_ofNat (n : ℕ) : pad02Int (n : ℤ) = pad02 n := by
  unfold pad02Int
  rw [if_neg (by omega : ¬ ((n : ℤ) < 0))]
  simp

theorem pad02Int_chars (z : ℤ) : ∀ c ∈ pad02Int z, c = '-' ∨ c.isDigit = true := by
  intro c hc
  unfold pad02Int at hc
  by_cases hz : z < 0
  · rw [if_pos hz] at hc
    rcases List.mem_cons.1 hc with h1 | h1
    · exact Or.inl h1
    · exact Or.inr ((List.all_eq_true.1 (natRepr_spec z.natAbs).1) c h1)
  · rw [if_neg hz] at hc
    exact Or.inr ((List.all_eq_true.1 (pad02_spec z.toNat).1) c hc)

theorem transcriptLineFor_no_newline (s : Segment)
    (hsp : ∀ c ∈ s.speaker, c ≠ '\n') (htx : ∀ c ∈ s.text, c ≠ '\n') :
    ∀ c ∈ transcriptLineFor s, c ≠ '\n' := by
  intro c hc hceq
  subst hceq
  simp [transcriptLineFor] at hc
  have hpad : ∀ z : ℤ, '\n' ∉ pad02Int z := by
    intro z hz
    rcases pad02Int_chars z _ hz with h1 | h1
    · exact absurd h1 (by decide)
    · exact absurd h1 (by decide)
  rcases hc with h | h | h | h
  · exact hpad _ h
  · exact hpad _ h
  · exact hsp _ h rfl
  · exact htx _ h rfl

theorem fdiv_cast_60 (n : ℕ) : Int.fdiv (n : ℤ) 60 = ((n / 60 : ℕ) : ℤ) := by
  rw [Int.fdiv_eq_ediv _ (by norm_num)]
  omega

theorem emod_cast_60 (n : ℕ) : Int.emod (n : ℤ) 60 = ((n % 60 : ℕ) : ℤ) := by
  show (n : ℤ) % 60 = ((n % 60 : ℕ) : ℤ)
  omega

theorem transcriptLineFor_eq (s : Segment) (hs : 0 ≤ s.start) :
    transcriptLineFor s
      = '[' :: pad02 ((Rat.floor s.start).toNat / 60)
          ++ ':' :: pad02 ((Rat.floor s.start).toNat % 60)
          ++ ']' :: ' ' :: s.speaker ++ ':' :: ' ' :: s.text := by
  have he : 0 ≤ Rat.floor s.start := Int.floor_nonneg.mpr hs
  have hcast : ((Rat.floor s.start).toNat : ℤ) = Rat.floor s.start :=
    Int.toNat_of_nonneg he
  unfold transcriptLineFor
  rw [← hcast, fdiv_cast_60, emod_cast_60, pad02Int_ofNat, pad02Int_ofNat,
    Int.toNat_natCast]

/-- Claim C5, counterexample: for a stored segment whose timestamp exceeds
one hour the rendered line still uses the `[MM:SS]` shape with an
unbounded minute count (`int(start // 60)`), never `[HH:MM:SS]`: a
segment starting at 3700 seconds renders as `[61:40] X: t`, not as the
`[01:01:40] X: t` the claim requires. -/
theorem render_hhmmss_counterexample :
    rebuildTranscript
        [ { start := 3700, stop := 3705, speaker := ("X".toList), text := ("t".toList) } ]
      = (("D&D Session Transcription".toList) ++ '\n' :: List.replicate 50 '='
          ++ '\n' :: '\n' :: ("[61:40] X: t".toList))
    ∧ rebuildTranscript
        [ { start := 3700, stop := 3705, speaker := ("X".toList), text := ("t".toList) } ]
      ≠ (("D&D Session Transcription".toList) ++ '\n' :: List.replicate 50 '='
          ++ '\n' :: '\n' :: ("[01:01:40] X: t".toList)) := by
  refine ⟨by decide, by decide⟩

/-- Claim C5, amended: the rendered plain transcript is the fixed title
block followed by exactly one line per stored segment, in stored
(chronological) order, each line of the form
`[MM:SS] <speaker>: <text>` where `MM` is the segment's full minute count
(`⌊start⌋ / 60`, not reduced modulo 60) and `SS` is `⌊start⌋ % 60`; lines
always use this shape, also when a segment exceeds one hour (the
`[HH:MM:SS]` variant claimed by the specification is never produced —
see `render_hhmmss_counterexample`). -/
theorem render_plain_structure (segs : List Segment)
    (h : ∀ s ∈ segs, (∀ c ∈ s.speaker, c ≠ '\n') ∧ (∀ c ∈ s.text, c ≠ '\n') ∧ 0 ≤ s.start) :
    splitLines (rebuildTranscript segs)
      = ("D&D Session Transcription".toList) :: List.replicate 50 '=' :: [] ::
          segs.map (fun s =>
            '[' :: pad02 ((Rat.floor s.start).toNat / 60)
              ++ ':' :: pad02 ((Rat.floor s.start).toNat % 60)
              ++ ']' :: ' ' :: s.speaker ++ ':' :: ' ' :: s.text) := by
  unfold rebuildTranscript
  rw [splitLines_joinLines]
  · show titleLines ++ segs.map transcriptLineFor = _
    rw [List.map_congr_left (fun s hs => transcriptLineFor_eq s (h s hs).2.2)]
    rfl
  · intro l hl
    rcases List.mem_append.1 hl with h1 | h1
    · rcases List.mem_cons.1 h1 with h2 | h2
      · subst h2; decide
      rcases List.mem_cons.1 h2 with h3 | h3
      · subst h3
        intro c hc
        rw [List.eq_of_mem_replicate hc]
        decide
      rcases List.mem_cons.1 h3 with h4 | h4
      · subst h4; simp
      · simp at h4
    · rcases List.mem_map.1 h1 with ⟨s, hsm, hline⟩
      subst hline
      exact transcriptLineFor_no_newline s (h s hsm).1 (h s hsm).2.1
  · simp [titleLines]

/-- Witness for the amended C5 on a one-segment session. -/
theorem render_plain_structure_witness :
    ((∀ s ∈ [({ start := 65, stop := 70, speaker := ("Bob".toList), text := ("hi".toList) } : Segment)],
        (∀ c ∈ s.speaker, c ≠ '\n') ∧ (∀ c ∈ s.text, c ≠ '\n') ∧ 0 ≤ s.start))
    ∧ splitLines
        (rebuildTranscript
          [ { start := 65, stop := 70, speaker := ("Bob".toList), text := ("hi".toList) } ])
      = ("D&D Session Transcription".toList) :: List.replicate 50 '=' :: [] ::
          [({ start := 65, stop := 70, speaker := ("Bob".toList), text := ("hi".toList) } : Segment)].map
            (fun s =>
              '[' :: pad02 ((Rat.floor s.start).toNat / 60)
                ++ ':' :: pad02 ((Rat.floor s.start).toNat % 60)
                ++ ']' :: ' ' :: s.speaker ++ ':' :: ' ' :: s.text) :=
  ⟨by decide,
    render_plain_structure
      [ { start := 65, stop := 70, speaker := ("Bob".toList), text := ("hi".toList) } ]
      (by decide)⟩

theorem legacy_line_parse (m s spk txt : Str)
    (hm : ∀ c ∈ m, c.isDigit = true) (hmne : m ≠ [])
    (hs : ∀ c ∈ s, c.isDigit = true) (hsne : s ≠ [])
    (hspkne : spk ≠ []) (hspkc : ∀ c ∈ spk, c ≠ ':') (htxne : txt ≠ []) :
    legacyParseLine
        ('[' :: (m ++ ':' :: (s ++ ']' :: ' ' :: (spk ++ ':' :: ' ' :: txt))))
      = some { start := ((digitsVal m * 60 + digitsVal s : ℕ) : ℚ),
               stop := ((digitsVal m * 60 + digitsVal s + 5 : ℕ) : ℚ),
               speaker := pystrip spk, text := txt } := by
  have hspkB : ∀ c ∈ spk, (c != ':') = true := by
    intro c hc
    simp [bne_iff_ne]
    exact hspkc c hc
  have htk1 : (m ++ ':' :: (s ++ ']' :: ' ' :: (spk ++ ':' :: ' ' :: txt))).takeWhile
      Char.isDigit = m := by
    rw [takeWhile_append_all _ _ _ hm, takeWhile_head_false _ _ _ (by decide)]
    simp
  have hdr1 : (m ++ ':' :: (s ++ ']' :: ' ' :: (spk ++ ':' :: ' ' :: txt))).dropWhile
      Char.isDigit = ':' :: (s ++ ']' :: ' ' :: (spk ++ ':' :: ' ' :: txt)) := by
    rw [dropWhile_append_all _ _ _ hm, dropWhile_head_false _ _ _ (by decide)]
  have htk2 : (s ++ ']' :: ' ' :: (spk ++ ':' :: ' ' :: txt)).takeWhile
      Char.isDigit = s := by
    rw [takeWhile_append_all _ _ _ hs, takeWhile_head_false _ _ _ (by decide)]
    simp
  have hdr2 : (s ++ ']' :: ' ' :: (spk ++ ':' :: ' ' :: txt)).dropWhile
      Char.isDigit = ']' :: ' ' :: (spk ++ ':' :: ' ' :: txt) := by
    rw [dropWhile_append_all _ _ _ hs, dropWhile_head_false _ _ _ (by decide)]
  have htk3 : (spk ++ ':' :: ' ' :: txt).takeWhile (fun c => c != ':') = spk := by
    rw [takeWhile_append_all _ _ _ hspkB, takeWhile_head_false _ _ _ (by decide)]
    simp
  have hdr3 : (spk ++ ':' :: ' ' :: txt).dropWhile (fun c => c != ':')
      = ':' :: ' ' :: txt := by
    rw [dropWhile_append_all _ _ _ hspkB, dropWhile_head_false _ _ _ (by decide)]
  simp only [legacyParseLine, htk1, hdr1, htk2, hdr2, htk3, hdr3, hmne, hsne,
    hspkne, htxne, if_false]

/-- Claim C6: legacy recovery.  Loading a flat transcript with no sidecar
reconstructs one segment per line matching `[MM:SS] Speaker: text`, with
`start = MM*60 + SS`, `end = start + 5` and the parsed (stripped) speaker
and text fields; in particular the two-line transcript of the claim
yields exactly the segments (Alice, 5, 10) and (Bob, 70, 75). -/
theorem legacy_recovery :
    (∀ m s spk txt : Str,
      (∀ c ∈ m, c.isDigit = true) → m ≠ [] →
      (∀ c ∈ s, c.isDigit = true) → s ≠ [] →
      spk ≠ [] → (∀ c ∈ spk, c ≠ ':') → txt ≠ [] →
      legacyParseLine
          ('[' :: (m ++ ':' :: (s ++ ']' :: ' ' :: (spk ++ ':' :: ' ' :: txt))))
        = some { start := ((digitsVal m * 60 + digitsVal s : ℕ) : ℚ),
                 stop := ((digitsVal m * 60 + digitsVal s + 5 : ℕ) : ℚ),
                 speaker := pystrip spk, text := txt })
    ∧ (load_transcript_directly emptySession
          (.txtFile ("session_notes.txt".toList)
            ("[00:05] Alice: Hello\n[01:10] Bob: Hi there".toList) none)).state.segments_data
        = [ { start := ((5 : ℕ) : ℚ), stop := ((10 : ℕ) : ℚ),
              speaker := ("Alice".toList), text := ("Hello".toList) },
            { start := ((70 : ℕ) : ℚ), stop := ((75 : ℕ) : ℚ),
              speaker := ("Bob".toList), text := ("Hi there".toList) } ] :=
  ⟨fun m s spk txt hm hmne hs hsne hspkne hspkc htxne =>
    legacy_line_parse m s spk txt hm hmne hs hsne hspkne hspkc htxne,
   by decide⟩

/-- Witness for C6 at the concrete line `[02:07] Carol: yo`. -/
theorem legacy_recovery_witness :
    ((∀ c ∈ ("02".toList), Char.isDigit c = true) ∧ ("02".toList) ≠ []
      ∧ (∀ c ∈ ("07".toList), Char.isDigit c = true) ∧ ("07".toList) ≠ []
      ∧ ("Carol".toList) ≠ [] ∧ (∀ c ∈ ("Carol".toList), c ≠ ':') ∧ ("yo".toList) ≠ [])
    ∧ legacyParseLine
        ('[' :: (("02".toList) ++ ':' :: (("07".toList) ++ ']' :: ' '
          :: (("Carol".toList) ++ ':' :: ' ' :: ("yo".toList)))))
      = some { start := ((digitsVal ("02".toList) * 60 + digitsVal ("07".toList) : ℕ) : ℚ),
               stop := ((digitsVal ("02".toList) * 60 + digitsVal ("07".toList) + 5 : ℕ) : ℚ),
               speaker := pystrip ("Carol".toList), text := ("yo".toList) } :=
  ⟨⟨by decide, by decide, by decide, by decide, by decide, by decide, by decide⟩,
    legacy_recovery.1 ("02".toList) ("07".toList) ("Carol".toList) ("yo".toList)
      (by decide) (by decide) (by decide) (by decide) (by decide) (by decide) (by decide)⟩

theorem mem_setAdd (l : List Str) (x n : Str) : n ∈ setAdd l x ↔ n ∈ l ∨ n = x := by
  unfold setAdd
  by_cases h : x ∈ l
  · rw [if_pos h]
    constructor
    · exact Or.inl
    · rintro (h1 | rfl)
      · exact h1
      · exact h
  · rw [if_neg h]
    simp

theorem active_speakers_mem (segs : List Segment) (speakers : List (Str × Str))
    (t : ℚ) (n : Str) :
    n ∈ active_speakers segs speakers t
      ↔ ∃ seg ∈ segs, (seg.start - 0.5 ≤ t ∧ t ≤ seg.stop + 0.5)
          ∧ resolveDisplay speakers seg.speaker = some n := by
  have key : ∀ (l : List Segment) (acc : List Str),
      (n ∈ l.foldl
          (fun acc seg =>
            if seg.start - 0.5 ≤ t ∧ t ≤ seg.stop + 0.5 then
              match resolveDisplay speakers seg.speaker with
              | some m => setAdd acc m
              | none => acc
            else acc)
          acc
        ↔ n ∈ acc ∨ ∃ seg ∈ l, (seg.start - 0.5 ≤ t ∧ t ≤ seg.stop + 0.5)
            ∧ resolveDisplay speakers seg.speaker = some n) := by
    intro l
    induction l with
    | nil => intro acc; simp
    | cons seg rest ih =>
      intro acc
      rw [List.foldl_cons]
      by_cases hw : seg.start - 0.5 ≤ t ∧ t ≤ seg.stop + 0.5
      · cases hr : resolveDisplay speakers seg.speaker with
        | none =>
          simp only [if_pos hw, hr]
          rw [ih acc]
          simp only [List.exists_mem_cons_iff, hr]
          constructor
          · rintro (h1 | h1)
            · exact Or.inl h1
            · exact Or.inr (Or.inr h1)
          · rintro (h1 | ⟨_, h2⟩ | h1)
            · exact Or.inl h1
            · exact absurd h2 (by simp)
            · exact Or.inr h1
        | some d =>
          simp only [if_pos hw, hr]
          rw [ih (setAdd acc d)]
          simp only [List.exists_mem_cons_iff, hr, mem_setAdd]
          constructor
          · rintro ((h1 | rfl) | h1)
            · exact Or.inl h1
            · exact Or.inr (Or.inl ⟨hw, rfl⟩)
            · exact Or.inr (Or.inr h1)
          · rintro (h1 | ⟨_, h2⟩ | h1)
            · exact Or.inl (Or.inl h1)
            · exact Or.inl (Or.inr (by injection h2 with h3; exact h3.symm))
            · exact Or.inr h1
      · rw [if_neg hw, ih acc]
        simp only [List.exists_mem_cons_iff]
        constructor
        · rintro (h1 | h1)
          · exact Or.inl h1
          · exact Or.inr (Or.inr h1)
        · rintro (h1 | ⟨h2, _⟩ | h1)
          · exact Or.inl h1
          · exact absurd h2 hw
          · exact Or.inr h1
  unfold active_speakers
  rw [key segs []]
  simp

/-- Claim C7: active-speaker linger.  A display name is reported active at
time `t` exactly when some stored segment with window
`start - 0.5 ≤ t ≤ end + 0.5` resolves to it through the identity
registry (first entry matching the stored label as either raw key or
renamed value, displaying the entry's value, or its key when the value is
empty); in particular, for the segment `{start 10, end 12, speaker
Alice}` with `Alice` registered, times 9.6 and 12.4 include `Alice` while
9.0 and 13.0 do not. -/
theorem active_speaker_linger :
    (∀ (segs : List Segment) (speakers : List (Str × Str)) (t : ℚ) (n : Str),
      n ∈ active_speakers segs speakers t
        ↔ ∃ seg ∈ segs, (seg.start - 0.5 ≤ t ∧ t ≤ seg.stop + 0.5)
            ∧ resolveDisplay speakers seg.speaker = some n)
    ∧ (("Alice".toList) ∈ active_speakers
          [ { start := 10, stop := 12, speaker := ("Alice".toList), text := ("hi".toList) } ]
          [(("Alice".toList), ("Alice".toList))] 9.6
      ∧ ("Alice".toList) ∈ active_speakers
          [ { start := 10, stop := 12, speaker := ("Alice".toList), text := ("hi".toList) } ]
          [(("Alice".toList), ("Alice".toList))] 12.4
      ∧ ("Alice".toList) ∉ active_speakers
          [ { start := 10, stop := 12, speaker := ("Alice".toList), text := ("hi".toList) } ]
          [(("Alice".toList), ("Alice".toList))] 9
      ∧ ("Alice".toList) ∉ active_speakers
          [ { start := 10, stop := 12, speaker := ("Alice".toList), text := ("hi".toList) } ]
          [(("Alice".toList), ("Alice".toList))] 13) := by
  refine ⟨active_speakers_mem, ?_, ?_, ?_, ?_⟩
  · norm_num [active_speakers, resolveDisplay, setAdd]
  · norm_num [active_speakers, resolveDisplay, setAdd]
  · norm_num [active_speakers, resolveDisplay, setAdd]
  · norm_num [active_speakers, resolveDisplay, setAdd]

theorem rekeyFold_cons (sp acc : List (Str × Str)) (p : Str × Str) (t : List (Str × Str)) :
    rekeyFold sp acc (p :: t)
      = rekeyFold sp (dinsert acc (rekeyName sp p.1) p.2) t := by
  cases h : dlookup sp p.1 <;> simp [rekeyFold, rekeyName, h]

theorem rekeyFold_append (sp acc : List (Str × Str)) (l1 l2 : List (Str × Str)) :
    rekeyFold sp acc (l1 ++ l2) = rekeyFold sp (rekeyFold sp acc l1) l2 := by
  induction l1 generalizing acc with
  | nil => rfl
  | cons p t ih =>
    rw [List.cons_append, rekeyFold_cons, rekeyFold_cons, ih]

theorem rekeyFold_lookup_untouched (sp : List (Str × Str)) (m : List (Str × Str))
    (k : Str) (h : ∀ p ∈ m, rekeyName sp p.1 ≠ k) :
    ∀ acc, dlookup (rekeyFold sp acc m) k = dlookup acc k := by
  induction m with
  | nil => intro acc; rfl
  | cons p t ih =>
    intro acc
    rw [rekeyFold_cons, ih (fun q hq => h q (List.mem_cons_of_mem p hq)),
      dlookup_dinsert]
    rw [if_neg]
    intro hk
    exact h p (List.mem_cons_self p t) (hk ▸ rfl)

theorem rekey_lookup_none (sp m : List (Str × Str)) (k : Str)
    (h : ∀ p ∈ m, rekeyName sp p.1 ≠ k) :
    dlookup (rekeyDict sp m) k = none :=
  rekeyFold_lookup_untouched sp m k h []

theorem rekeyName_of_lookup {sp : List (Str × Str)} {k n : Str}
    (h : dlookup sp k = some n) : rekeyName sp k = n := by
  unfold rekeyName
  rw [h]

theorem rekey_lookup_moved (sp m : List (Str × Str)) (A B v : Str)
    (hAB : dlookup sp A = some B)
    (hmv : dlookup m A = some v)
    (hnodup : (m.map Prod.fst).Nodup)
    (hother : ∀ p ∈ m, p.1 ≠ A → rekeyName sp p.1 ≠ B) :
    dlookup (rekeyDict sp m) B = some v := by
  rcases dlookup_split hmv with ⟨d1, d2, hd, hk1⟩
  have hk2 : A ∉ d2.map Prod.fst := by
    subst hd
    have h3 : ((d1.map Prod.fst) ++ A :: d2.map Prod.fst).Nodup := by
      simpa [List.map_append] using hnodup
    exact (List.nodup_cons.1 (List.Nodup.of_append_right h3)).1
  have h1 : ∀ p ∈ d1, rekeyName sp p.1 ≠ B := by
    intro p hp
    have hne : p.1 ≠ A := by
      intro hh
      exact hk1 (List.mem_map.2 ⟨p, hp, hh⟩)
    exact hother p (by rw [hd]; exact List.mem_append_left _ hp) hne
  have h2 : ∀ p ∈ d2, rekeyName sp p.1 ≠ B := by
    intro p hp
    have hne : p.1 ≠ A := by
      intro hh
      exact hk2 (List.mem_map.2 ⟨p, hp, hh⟩)
    exact hother p (by rw [hd]; exact List.mem_append_right _ (List.mem_cons_of_mem _ hp)) hne
  unfold rekeyDict
  rw [hd, rekeyFold_append, rekeyFold_cons,
    rekeyFold_lookup_untouched sp d2 B h2, dlookup_dinsert,
    if_pos (rekeyName_of_lookup hAB).symm]

theorem countP_congr_on (l : List α) (p q : α → Bool)
    (h : ∀ a ∈ l, p a = q a) : l.countP p = l.countP q := by
  induction l with
  | nil => rfl
  | cons a t ih =>
    rw [List.countP_cons, List.countP_cons, h a (List.mem_cons_self a t),
      ih (fun b hb => h b (List.mem_cons_of_mem a hb))]

theorem renameSegment_speaker {sp : List (Str × Str)} {seg : Segment} {n : Str}
    (h : dlookup sp seg.speaker = some n) :
    (renameSegment sp seg).speaker = n := by
  simp [renameSegment, h]

/-- Claim C1, counterexample: rename propagation is not total as claimed.
With the registry `{A → B, D → A}` — which satisfies the claim's premise
that `A` maps to the nonempty name `B` — the session's two segments
`[A, D]` are rewritten to `[B, A]` in one pass, so one segment with
speaker field `A` remains (the rename of `D` to `A` leaks the old name
back in), not zero as the claim requires. -/
theorem rename_totality_counterexample :
    dlookup
        ({ emptySession with
            speakers := [(("A".toList), ("B".toList)), (("D".toList), ("A".toList))],
            segments_data :=
              [ { start := 0, stop := 1, speaker := ("A".toList), text := ("x".toList) },
                { start := 2, stop := 3, speaker := ("D".toList), text := ("y".toList) } ] }
          : SessionState).speakers ("A".toList) = some ("B".toList)
    ∧ ({ emptySession with
          speakers := [(("A".toList), ("B".toList)), (("D".toList), ("A".toList))],
          segments_data :=
            [ { start := 0, stop := 1, speaker := ("A".toList), text := ("x".toList) },
              { start := 2, stop := 3, speaker := ("D".toList), text := ("y".toList) } ] }
        : SessionState).segments_data.countP
        (fun seg => decide (seg.speaker = ("A".toList))) = 1
    ∧ ¬ ((apply_speaker_names
          { emptySession with
              speakers := [(("A".toList), ("B".toList)), (("D".toList), ("A".toList))],
              segments_data :=
                [ { start := 0, stop := 1, speaker := ("A".toList), text := ("x".toList) },
                  { start := 2, stop := 3, speaker := ("D".toList), text := ("y".toList) } ] }).segments_data.countP
          (fun seg => decide (seg.speaker = ("A".toList))) = 0) := by
  refine ⟨by decide, by decide, by decide⟩

/-- Claim C1, amended: rename totality holds once the claim's premise is
strengthened to rule out the collisions the source allows silently
(specification §9 records the silent-merge behaviour as an open
question): the registry keys are distinct, `A` maps to the distinct
nonempty name `B`, no other registry entry maps to `A` or `B`, and every
segment speaker, avatar key and gender key is a registry key.  Then after
`apply_speaker_names` zero segments carry speaker `A`, exactly the former
`A`-segments carry `B`, no avatar or gender entry is keyed by `A`, and an
avatar or gender value formerly keyed by `A` is found under `B`. -/
theorem rename_totality_amended
    (st : SessionState) (A B : Str)
    (hkeys : (st.speakers.map Prod.fst).Nodup)
    (havk : (st.speaker_avatars.map Prod.fst).Nodup)
    (hgenk : (st.speaker_genders.map Prod.fst).Nodup)
    (hAB : dlookup st.speakers A = some B)
    (hABne : A ≠ B)
    (hBne : pystrip B ≠ [])
    (hinj : ∀ p ∈ st.speakers, p.1 ≠ A → p.2 ≠ A ∧ p.2 ≠ B)
    (hsegs : ∀ seg ∈ st.segments_data, seg.speaker ∈ st.speakers.map Prod.fst)
    (hav : ∀ p ∈ st.speaker_avatars, p.1 ∈ st.speakers.map Prod.fst)
    (hgen : ∀ p ∈ st.speaker_genders, p.1 ∈ st.speakers.map Prod.fst) :
    ((apply_speaker_names st).segments_data.countP
        (fun seg => decide (seg.speaker = A)) = 0)
    ∧ ((apply_speaker_names st).segments_data.countP
          (fun seg => decide (seg.speaker = B))
        = st.segments_data.countP (fun seg => decide (seg.speaker = A)))
    ∧ dlookup (apply_speaker_names st).speaker_avatars A = none
    ∧ dlookup (apply_speaker_names st).speaker_genders A = none
    ∧ (∀ v, dlookup st.speaker_avatars A = some v →
        dlookup (apply_speaker_names st).speaker_avatars B = some v)
    ∧ (∀ v, dlookup st.speaker_genders A = some v →
        dlookup (apply_speaker_names st).speaker_genders B = some v) := by
  have hkeyfact : ∀ k ∈ st.speakers.map Prod.fst,
      ∃ n, dlookup st.speakers k = some n
        ∧ (k = A → n = B) ∧ (k ≠ A → n ≠ A ∧ n ≠ B) := by
    intro k hk
    rcases dlookup_isSome_of_mem_keys hk with ⟨n, hn⟩
    refine ⟨n, hn, ?_, ?_⟩
    · intro hkA
      subst hkA
      rw [hAB] at hn
      injection hn with hh
      exact hh.symm
    · intro hkne
      exact hinj (k, n) (dlookup_mem hn) hkne
  have hseg_eq : (apply_speaker_names st).segments_data
      = st.segments_data.map (renameSegment st.speakers) := rfl
  have hav_eq : (apply_speaker_names st).speaker_avatars
      = rekeyDict st.speakers st.speaker_avatars := rfl
  have hgen_eq : (apply_speaker_names st).speaker_genders
      = rekeyDict st.speakers st.speaker_genders := rfl
  refine ⟨?_, ?_, ?_, ?_, ?_, ?_⟩
  · rw [hseg_eq, List.countP_map]
    rw [List.countP_eq_zero]
    intro seg hseg
    rcases hkeyfact seg.speaker (hsegs seg hseg) with ⟨n, hn, hA, hnA⟩
    simp only [Function.comp_apply, renameSegment_speaker hn, decide_eq_true_eq]
    by_cases hx : seg.speaker = A
    · rw [hA hx]
      exact Ne.symm hABne
    · exact (hnA hx).1
  · rw [hseg_eq, List.countP_map]
    apply countP_congr_on
    intro seg hseg
    rcases hkeyfact seg.speaker (hsegs seg hseg) with ⟨n, hn, hA, hnA⟩
    simp only [Function.comp_apply, renameSegment_speaker hn]
    by_cases hx : seg.speaker = A
    · rw [hA hx, hx]
      simp
    · simp [(hnA hx).2, hx]
  · rw [hav_eq]
    apply rekey_lookup_none
    intro p hp
    rcases hkeyfact p.1 (hav p hp) with ⟨n, hn, hA, hnA⟩
    rw [rekeyName_of_lookup hn]
    by_cases hx : p.1 = A
    · rw [hA hx]
      exact Ne.symm hABne
    · exact (hnA hx).1
  · rw [hgen_eq]
    apply rekey_lookup_none
    intro p hp
    rcases hkeyfact p.1 (hgen p hp) with ⟨n, hn, hA, hnA⟩
    rw [rekeyName_of_lookup hn]
    by_cases hx : p.1 = A
    · rw [hA hx]
      exact Ne.symm hABne
    · exact (hnA hx).1
  · intro v hv
    rw [hav_eq]
    apply rekey_lookup_moved st.speakers _ A B v hAB hv havk
    intro p hp hpne
    rcases hkeyfact p.1 (hav p hp) with ⟨n, hn, _, hnA⟩
    rw [rekeyName_of_lookup hn]
    exact (hnA hpne).2
  · intro v hv
    rw [hgen_eq]
    apply rekey_lookup_moved st.speakers _ A B v hAB hv hgenk
    intro p hp hpne
    rcases hkeyfact p.1 (hgen p hp) with ⟨n, hn, _, hnA⟩
    rw [rekeyName_of_lookup hn]
    exact (hnA hpne).2

/-- Witness for the amended C1 on a session with one renamed speaker,
one other speaker, two `A`-segments, and an avatar and gender for `A`. -/
theorem rename_totality_witness :
    ((apply_speaker_names
        { emptySession with
            speakers := [(("A".toList), ("B".toList)), (("D".toList), ("D".toList))],
            segments_data :=
              [ { start := 0, stop := 1, speaker := ("A".toList), text := ("x".toList) },
                { start := 2, stop := 3, speaker := ("D".toList), text := ("y".toList) },
                { start := 4, stop := 5, speaker := ("A".toList), text := ("z".toList) } ],
            speaker_avatars := [(("A".toList), ("a.png".toList))],
            speaker_genders := [(("A".toList), ("Male".toList))] }).segments_data.countP
        (fun seg => decide (seg.speaker = ("A".toList))) = 0)
    ∧ ((apply_speaker_names
        { emptySession with
            speakers := [(("A".toList), ("B".toList)), (("D".toList), ("D".toList))],
            segments_data :=
              [ { start := 0, stop := 1, speaker := ("A".toList), text := ("x".toList) },
                { start := 2, stop := 3, speaker := ("D".toList), text := ("y".toList) },
                { start := 4, stop := 5, speaker := ("A".toList), text := ("z".toList) } ],
            speaker_avatars := [(("A".toList), ("a.png".toList))],
            speaker_genders := [(("A".toList), ("Male".toList))] }).segments_data.countP
          (fun seg => decide (seg.speaker = ("B".toList)))
        = ({ emptySession with
            speakers := [(("A".toList), ("B".toList)), (("D".toList), ("D".toList))],
            segments_data :=
              [ { start := 0, stop := 1, speaker := ("A".toList), text := ("x".toList) },
                { start := 2, stop := 3, speaker := ("D".toList), text := ("y".toList) },
                { start := 4, stop := 5, speaker := ("A".toList), text := ("z".toList) } ],
            speaker_avatars := [(("A".toList), ("a.png".toList))],
            speaker_genders := [(("A".toList), ("Male".toList))] }
            : SessionState).segments_data.countP
            (fun seg => decide (seg.speaker = ("A".toList)))) :=
  ⟨(rename_totality_amended _ ("A".toList) ("B".toList) (by decide) (by decide)
      (by decide) (by decide) (by decide) (by decide) (by decide) (by decide)
      (by decide) (by decide)).1,
    (rename_totality_amended _ ("A".toList) ("B".toList) (by decide) (by decide)
      (by decide) (by decide) (by decide) (by decide) (by decide) (by decide)
      (by decide) (by decide)).2.1⟩
